import Mathlib

/-!
Verification of the ticket diff/merge engine of the jira-table-processor
repository (`src/examples/confluence_getting_jira.py`, class
`JiraIncrementalSync`).

Strings are modelled as `List Char`; a Python value that may be `None` is
modelled as an `Option`.  Pure methods of the class become Lean functions
with the same names; the I/O free core of `sync_jira_issues` (the merge
loop over one fetched batch) becomes `sync_merge`.  A raised exception is
modelled as `none` in an `Option` result.
-/

/-- The characters stripped by Python's `str.strip()` (ASCII whitespace,
`string.whitespace`). -/
def pyWS (c : Char) : Bool :=
  c = ' ' || c = '\t' || c = '\n' || c = '\r' || c = '\x0b' || c = '\x0c'

/-- Python `s.strip()`: drop whitespace from both ends. -/
def pyStrip (s : List Char) : List Char :=
  ((s.dropWhile pyWS).reverse.dropWhile pyWS).reverse

/-- Python `s.replace('\r\n', '\n')`: scan left to right; at an occurrence
of `"\r\n"` emit `'\n'` and skip both characters, otherwise emit the
character and move on. -/
def replCRLF : List Char → List Char
  | [] => []
  | [c] => [c]
  | c₁ :: c₂ :: rest =>
      if c₁ = '\r' ∧ c₂ = '\n' then '\n' :: replCRLF rest
      else c₁ :: replCRLF (c₂ :: rest)

/-- Python `s.replace('\t', ' ')`. -/
def replTab (s : List Char) : List Char :=
  s.map (fun c => if c = '\t' then ' ' else c)

/-- The sentinel returned by `clean_text` for falsy input. -/
def noContentS : List Char := "No content".toList

/-- The stored-resolution sentinel special-cased in `safe_compare`. -/
def unresolvedS : List Char := "Unresolved".toList

/-- The stored-root-cause sentinel special-cased in `safe_compare`. -/
def noRootCauseS : List Char := "No root cause provided".toList

/-- The placeholder message filtered out of stored comment lists. -/
def noCommentsMsgS : List Char := "No comments found for this issue.".toList

/-- Default reporter name used by `extract_issue_data`. -/
def unknownReporterS : List Char := "Unknown Reporter".toList

/-- `JiraIncrementalSync.clean_text`: `if text: return
text.strip().replace('\r\n','\n').replace('\t',' ')` else `'No content'`.
Python truthiness: `none` and the empty string are falsy. -/
def clean_text (text : Option (List Char)) : List Char :=
  match text with
  | some s => if s = [] then noContentS else replTab (replCRLF (pyStrip s))
  | none => noContentS

/-- `JiraIncrementalSync.get_custom_field_value`: `clean_text(value) if value
else None` (the `getattr` failure case is the `none` input). -/
def get_custom_field_value (value : Option (List Char)) : Option (List Char) :=
  match value with
  | none => none
  | some s => if s = [] then none else some (clean_text (some s))

/-- One comment of a raw fetched issue (`comment.author.displayName`,
`comment.body`). -/
structure RawComment where
  author : List Char
  body : List Char
deriving DecidableEq

/-- A raw fetched Jira issue as the code reads it: every optional field of
`issue.fields` is an `Option` (`none` models Python `None` / a missing
attribute; `resolution` holds the resolution name). -/
structure RawTicket where
  key : List Char
  summary : Option (List Char)
  reporter : Option (List Char)
  description : Option (List Char)
  resolution : Option (List Char)
  root_cause : Option (List Char)
  created : Option (List Char)
  comments : List RawComment
deriving DecidableEq

/-- One stored comment dict: `.get('body', '')` and `.get('message')` both
occur in the code, so both keys are modelled, each possibly absent. -/
structure StoredComment where
  author : Option (List Char)
  body : Option (List Char)
  message : Option (List Char)
deriving DecidableEq

/-- One stored issue dict as produced by `extract_issue_data` or reloaded
from the JSON file; every field except `key` is read with `.get`, so it is
an `Option`. -/
structure StoredIssue where
  key : List Char
  summary : Option (List Char)
  reporter : Option (List Char)
  description : Option (List Char)
  resolution : Option (List Char)
  root_cause : Option (List Char)
  created_at : Option (List Char)
  comments : List StoredComment
deriving DecidableEq

/-- `JiraIncrementalSync.extract_issue_data`. -/
def extract_issue_data (t : RawTicket) : StoredIssue :=
  { key := t.key
    summary := some (clean_text t.summary)
    reporter := some (t.reporter.getD unknownReporterS)
    description := some (clean_text t.description)
    resolution := t.resolution
    root_cause := get_custom_field_value t.root_cause
    created_at := get_custom_field_value t.created
    comments := t.comments.map (fun c =>
      { author := some c.author, body := some (clean_text (some c.body)), message := none }) }

/-- The inner helper `safe_compare` of `is_issue_modified`.  `str(v)` of a
string is itself, so the Python `str(...)` calls disappear; the
`isinstance(new_value, type)` branch never fires for string/absent values
and is omitted. -/
def safe_compare (existing_value new_value : Option (List Char)) : Bool :=
  if existing_value = none ∧ new_value = none then false
  else if existing_value = some noRootCauseS ∧ new_value = none then false
  else if existing_value = some unresolvedS ∧ new_value = none then false
  else
    let new_str := new_value.map (fun v => clean_text (some v))
    let existing_str := existing_value.map (fun v => clean_text (some v))
    if (existing_str = some noContentS ∧ new_str = none) ∨
       (existing_str = none ∧ new_str = some noContentS) then false
    else decide (existing_str ≠ new_str)

/-- The stored comment list after the placeholder filter of
`is_issue_modified` (drop entries whose `message` is the placeholder). -/
def filteredComments (e : StoredIssue) : List StoredComment :=
  e.comments.filter (fun c => !(c.message == some noCommentsMsgS))

/-- The comment-comparison tail of `is_issue_modified`: count check, then
positional body comparison over `zip` when the fetched list is non-empty. -/
def commentsModified (e : StoredIssue) (t : RawTicket) : Bool :=
  let existing := filteredComments e
  let newC := t.comments
  if existing.length ≠ newC.length ∧ (0 < existing.length ∨ 0 < newC.length) then true
  else if newC.isEmpty then false
  else (existing.zip newC).any (fun p =>
    decide (clean_text (some (p.1.body.getD [])) ≠ clean_text (some p.2.body)))

/-- `JiraIncrementalSync.is_issue_modified`: `safe_compare` over the four
fields of `comparison_map` in order, then the comment comparison. -/
def is_issue_modified (existing_issue : StoredIssue) (new_issue : RawTicket) : Bool :=
  safe_compare existing_issue.summary new_issue.summary ||
  safe_compare existing_issue.description new_issue.description ||
  safe_compare existing_issue.resolution new_issue.resolution ||
  safe_compare existing_issue.root_cause new_issue.root_cause ||
  commentsModified existing_issue new_issue

/-- One entry of the change log printed by `sync_jira_issues`
(`"Added new issue: …"` / `"Updated issue: …"`). -/
inductive ChangeEvent where
  | added (key : List Char)
  | updated (key : List Char)
deriving DecidableEq

/-- One iteration of the `for singleIssue in batch` loop of
`sync_jira_issues`.  `existing_issues` is the dictionary loaded once at the
start (never mutated in the loop); the accumulator carries
`updated_issues` and the change log.  Membership and lookup in the
dictionary are by key. -/
def mergeStep (existing_issues : List StoredIssue)
    (st : List StoredIssue × List ChangeEvent) (t : RawTicket) :
    List StoredIssue × List ChangeEvent :=
  let issue_data := extract_issue_data t
  match existing_issues.find? (fun i => i.key == t.key) with
  | some ex =>
      if is_issue_modified ex t then
        (st.1.filter (fun i => i.key != t.key) ++ [issue_data],
         st.2 ++ [ChangeEvent.updated t.key])
      else st
  | none =>
      (st.1 ++ [issue_data], st.2 ++ [ChangeEvent.added t.key])

/-- The I/O-free core of `sync_jira_issues` for one fetched batch:
`updated_issues` starts as `list(existing_issues.values())` and each
fetched issue is processed in delivery order. -/
def sync_merge (stored : List StoredIssue) (batch : List RawTicket) :
    List StoredIssue × List ChangeEvent :=
  batch.foldl (mergeStep stored) (stored, [])

/-- The keys of the batch tickets that are new with respect to the stored
collection (absent from the `existing_issues` dictionary), in delivery
order and with multiplicity. -/
def batchNewKeys (stored : List StoredIssue) (batch : List RawTicket) :
    List (List Char) :=
  (batch.filter (fun t => (stored.find? (fun i => i.key == t.key)).isNone)).map
    (fun t => t.key)

/-- One record of the persisted JSON array as `load_existing_data` reads
it: the `key` entry may be missing (`none`); the rest of the record is an
opaque payload. -/
structure RawStoredRecord where
  key : Option (List Char)
  payload : List Char
deriving DecidableEq

/-- Python dict assignment `d[k] = v`: overwrite in place if `k` is
present, else append. -/
def dictInsert (d : List (List Char × RawStoredRecord)) (k : List Char)
    (v : RawStoredRecord) : List (List Char × RawStoredRecord) :=
  if d.any (fun p => p.1 == k) then d.map (fun p => if p.1 == k then (k, v) else p)
  else d ++ [(k, v)]

/-- The dict comprehension loop of `load_existing_data`: insert the
records one by one; `issue['key']` on a record without a `key` entry
raises `KeyError`, modelled as the `none` result. -/
def loadDict (acc : List (List Char × RawStoredRecord)) :
    List RawStoredRecord → Option (List (List Char × RawStoredRecord))
  | [] => some acc
  | issue :: rest =>
      match issue.key with
      | none => none
      | some k => loadDict (dictInsert acc k issue) rest

/-- `JiraIncrementalSync.load_existing_data`, after the JSON parse: the
dict comprehension `{issue['key']: issue for issue in existing_data}`. -/
def load_existing_data (existing_data : List RawStoredRecord) :
    Option (List (List Char × RawStoredRecord)) :=
  loadDict [] existing_data

/-- A raw ticket whose summary is a single space: `clean_text` sends it to
the empty string, and re-comparing that stored empty string against the
same raw value goes through `clean_text('')` = `'No content'`. -/
def tIdem : RawTicket :=
  ⟨"EX-1".toList, some [' '], none, none, none, none, none, []⟩

/-- A persisted record without a `key` entry. -/
def badRec : RawStoredRecord := ⟨none, "x".toList⟩

/-- A well-formed persisted record. -/
def goodRec : RawStoredRecord := ⟨some "EX-2".toList, "y".toList⟩

/-- A stored issue whose only comment has the placeholder text as its
`body` (no `message` entry). -/
def eBodyPh : StoredIssue :=
  ⟨"EX-3".toList, some "s".toList, none, some "d".toList, none, none, none,
   [⟨some "a".toList, some noCommentsMsgS, none⟩]⟩

/-- A stored issue whose only comment carries the placeholder in its
`message` entry (and a real `body`). -/
def eMsgPh : StoredIssue :=
  ⟨"EX-3".toList, some "s".toList, none, some "d".toList, none, none, none,
   [⟨some "a".toList, some "x".toList, some noCommentsMsgS⟩]⟩

/-- A fetched ticket matching `eBodyPh`/`eMsgPh` on every scalar field,
with no comments. -/
def tNoCom : RawTicket :=
  ⟨"EX-3".toList, some "s".toList, none, some "d".toList, none, none, none, []⟩

/-- A fetched ticket with a key absent from any stored collection used
below. -/
def tDup : RawTicket := ⟨"EX-4".toList, none, none, none, none, none, none, []⟩

/-- Stored issue: resolution `"Unresolved"`. -/
def eRes : StoredIssue :=
  ⟨"EX-5".toList, some "s".toList, none, some "d".toList, some unresolvedS, none, none, []⟩

/-- Fetched ticket matching `eRes` except the resolution is absent. -/
def tRes : RawTicket :=
  ⟨"EX-5".toList, some "s".toList, none, some "d".toList, none, none, none, []⟩

/-- Stored issue: root cause `"No content"`. -/
def eRc1 : StoredIssue :=
  ⟨"EX-5".toList, some "s".toList, none, some "d".toList, none, some noContentS, none, []⟩

/-- Fetched ticket matching `eRc1` except the root cause is absent. -/
def tRc1 : RawTicket :=
  ⟨"EX-5".toList, some "s".toList, none, some "d".toList, none, none, none, []⟩

/-- Stored issue: root cause absent. -/
def eRc2 : StoredIssue :=
  ⟨"EX-5".toList, some "s".toList, none, some "d".toList, none, none, none, []⟩

/-- Fetched ticket matching `eRc2` except the root cause is the empty
string, which normalizes to `"No content"`. -/
def tRc2 : RawTicket :=
  ⟨"EX-5".toList, some "s".toList, none, some "d".toList, none, some [], none, []⟩

/-- Stored issue with one real comment whose body is `"foo"`. -/
def eFoo : StoredIssue :=
  ⟨"EX-6".toList, some "s".toList, none, some "d".toList, none, none, none,
   [⟨some "a".toList, some "foo".toList, none⟩]⟩

/-- Fetched ticket matching `eFoo` whose single comment body is
`"foo\r\n"`. -/
def tFoo : RawTicket :=
  ⟨"EX-6".toList, some "s".toList, none, some "d".toList, none, none, none,
   [⟨"a".toList, "foo\r\n".toList⟩]⟩

/-- Stored issue with one real comment. -/
def eCnt : StoredIssue :=
  ⟨"EX-7".toList, some "s".toList, none, some "d".toList, none, none, none,
   [⟨some "a".toList, some "c1".toList, none⟩]⟩

/-- Fetched ticket matching `eCnt` but with two comments. -/
def tCnt : RawTicket :=
  ⟨"EX-7".toList, some "s".toList, none, some "d".toList, none, none, none,
   [⟨"a".toList, "c1".toList⟩, ⟨"b".toList, "c2".toList⟩]⟩

/-- `safe_compare` never flags a value against itself. -/
lemma safe_compare_refl (x : Option (List Char)) : safe_compare x x = false := by
  cases x with
  | none => simp [safe_compare]
  | some v => simp [safe_compare]

/-- With both comment lists empty (after filtering), no comment
modification is flagged. -/
lemma commentsModified_empty (e : StoredIssue) (t : RawTicket)
    (he : filteredComments e = []) (ht : t.comments = []) :
    commentsModified e t = false := by
  simp [commentsModified, he, ht]

/-- The `loadDict` loop fails (raises) as soon as some remaining record
has no `key` entry. -/
lemma loadDict_none_of_missing_key :
    ∀ (data : List RawStoredRecord) (acc : List (List Char × RawStoredRecord)),
      (∃ r ∈ data, r.key = none) → loadDict acc data = none := by
  intro data
  induction data with
  | nil => intro acc h; rcases h with ⟨r, hr, _⟩; cases hr
  | cons issue rest ih =>
    intro acc h
    rcases h with ⟨r, hr, hk⟩
    rcases List.mem_cons.mp hr with rfl | hmem
    · simp [loadDict, hk]
    · cases hki : issue.key with
      | none => simp [loadDict, hki]
      | some k => simpa [loadDict, hki] using ih _ ⟨r, hmem, hk⟩

/-- The `loadDict` loop succeeds when every remaining record has a `key`
entry. -/
lemma loadDict_isSome_of_keys :
    ∀ (data : List RawStoredRecord) (acc : List (List Char × RawStoredRecord)),
      (∀ r ∈ data, r.key ≠ none) → (loadDict acc data).isSome := by
  intro data
  induction data with
  | nil => intro acc _; simp [loadDict]
  | cons issue rest ih =>
    intro acc h
    cases hki : issue.key with
    | none => exact absurd hki (h issue (List.mem_cons_self _ _))
    | some k =>
      simpa [loadDict, hki] using ih _ (fun r hr => h r (List.mem_cons_of_mem _ hr))

/-- C1: the spec's idempotence property fails on the code.  `tIdem`'s
summary is the single space `" "`; `extract_issue_data` stores it as the
empty string, and re-running the merge with the identical raw ticket over
the stored collection `[extract_issue_data tIdem]` (exactly the records
the batch extracts to) flags the summary as modified (`clean_text('')`
is `'No content'` while `clean_text(' ')` is `''`) and emits an
`Updated` event, where the claim demands none. -/
theorem c1_idempotence_fails_eval :
    is_issue_modified (extract_issue_data tIdem) tIdem = true ∧
    (sync_merge [extract_issue_data tIdem] [tIdem]).2 =
      [ChangeEvent.updated tIdem.key] := by
  constructor
  · decide
  · decide

/-- C2 counterexample: a stored collection containing a record without a
`key` entry makes `load_existing_data` raise (`none` models the Python
`KeyError` aborting the run); the record is not skipped defensively. -/
theorem c2_missing_key_raises : load_existing_data [goodRec, badRec] = none := by
  decide

/-- C2 amended: loading raises (aborts the run) as soon as any stored
record lacks the `key` entry, and succeeds exactly when every stored
record carries one; no record is ever skipped defensively. -/
theorem c2_load_raises_on_missing_key :
    (∀ data : List RawStoredRecord, (∃ r ∈ data, r.key = none) →
        load_existing_data data = none) ∧
    (∀ data : List RawStoredRecord, (∀ r ∈ data, r.key ≠ none) →
        (load_existing_data data).isSome) := by
  constructor
  · intro data h; exact loadDict_none_of_missing_key data [] h
  · intro data h; exact loadDict_isSome_of_keys data [] h

/-- C2 witness: the amended claim evaluated on concrete collections. -/
theorem c2_load_raises_witness :
    load_existing_data [goodRec, badRec] = none ∧
    (load_existing_data [goodRec]).isSome :=
  ⟨c2_load_raises_on_missing_key.1 [goodRec, badRec]
      ⟨badRec, by decide, rfl⟩,
   c2_load_raises_on_missing_key.2 [goodRec] (by decide)⟩

/-- C3 counterexample: the placeholder filter keys on the `message` entry,
not on the comment body.  A stored comment list whose single entry has the
placeholder string as its `body` is NOT filtered out, so against zero
fetched comments the count check fires and a modification IS flagged,
where the claim predicts none. -/
theorem c3_body_placeholder_not_filtered :
    is_issue_modified eBodyPh tNoCom = true := by decide

/-- C3 amended: the filter drops exactly the stored comments whose
`message` entry is the placeholder string; a stored comment list whose
entries all carry the placeholder message is treated as empty, so with
zero fetched comments (and equal scalar fields) no modification is
flagged. -/
theorem c3_message_placeholder_filtered :
    (∀ e : StoredIssue,
      filteredComments e = e.comments.filter (fun c => !(c.message == some noCommentsMsgS))) ∧
    (∀ (e : StoredIssue) (t : RawTicket),
      safe_compare e.summary t.summary = false →
      safe_compare e.description t.description = false →
      safe_compare e.resolution t.resolution = false →
      safe_compare e.root_cause t.root_cause = false →
      (∀ c ∈ e.comments, c.message = some noCommentsMsgS) →
      t.comments = [] →
      is_issue_modified e t = false) := by
  constructor
  · intro e; rfl
  · intro e t h1 h2 h3 h4 hall ht
    have hfil : filteredComments e = [] := by
      apply List.filter_eq_nil_iff.mpr
      intro c hc
      simp [hall c hc]
    simp [is_issue_modified, h1, h2, h3, h4, commentsModified_empty e t hfil ht]

/-- C3 witness: a stored issue whose only comment carries the placeholder
message (with a non-empty body) against a matching fetched ticket with no
comments. -/
theorem c3_message_placeholder_witness :
    is_issue_modified eMsgPh tNoCom = false :=
  c3_message_placeholder_filtered.2 eMsgPh tNoCom (by decide) (by decide)
    (by decide) (by decide) (by decide) rfl

/-- C4 counterexample: `existing_issues` is never updated inside the merge
loop, so a new key delivered twice in one batch is inserted twice: two
`Added` events for the same key and a duplicate key in the resulting
collection, where the claim demands exactly one `Added` per new key and
unique keys. -/
theorem c4_duplicate_new_key_double_added :
    (sync_merge [] [tDup, tDup]).2 =
      [ChangeEvent.added tDup.key, ChangeEvent.added tDup.key] ∧
    (sync_merge [] [tDup, tDup]).1.map (fun i => i.key) = [tDup.key, tDup.key] := by
  constructor
  · decide
  · decide

/-- C5: sentinel equivalence in `is_issue_modified` — stored resolution
`"Unresolved"` vs absent fetched resolution, stored root cause
`"No content"` vs absent fetched root cause, and absent stored root cause
vs a fetched value normalizing to `"No content"`, are each no
modification when the other compared fields are equal. -/
theorem c5_sentinel_equivalence :
    ∀ (e : StoredIssue) (t : RawTicket),
      e.summary = t.summary → e.description = t.description →
      e.comments = [] → t.comments = [] →
      ((e.resolution = some unresolvedS → t.resolution = none →
          e.root_cause = t.root_cause → is_issue_modified e t = false) ∧
       (e.root_cause = some noContentS → t.root_cause = none →
          e.resolution = t.resolution → is_issue_modified e t = false) ∧
       (∀ v, e.root_cause = none → t.root_cause = some v →
          clean_text (some v) = noContentS →
          e.resolution = t.resolution → is_issue_modified e t = false)) := by
  intro e t hs hd hce hct
  have h1 : safe_compare e.summary t.summary = false := by
    rw [hs]; exact safe_compare_refl _
  have h2 : safe_compare e.description t.description = false := by
    rw [hd]; exact safe_compare_refl _
  have hfil : filteredComments e = [] := by simp [filteredComments, hce]
  have hcm : commentsModified e t = false := commentsModified_empty e t hfil hct
  refine ⟨?_, ?_, ?_⟩
  · intro hr htr hrc
    have h3 : safe_compare e.resolution t.resolution = false := by
      rw [hr, htr]; decide
    have h4 : safe_compare e.root_cause t.root_cause = false := by
      rw [hrc]; exact safe_compare_refl _
    simp [is_issue_modified, h1, h2, h3, h4, hcm]
  · intro hrc htrc hr
    have h3 : safe_compare e.resolution t.resolution = false := by
      rw [hr]; exact safe_compare_refl _
    have h4 : safe_compare e.root_cause t.root_cause = false := by
      rw [hrc, htrc]; decide
    simp [is_issue_modified, h1, h2, h3, h4, hcm]
  · intro v hrc htrc hv hr
    have h3 : safe_compare e.resolution t.resolution = false := by
      rw [hr]; exact safe_compare_refl _
    have h4 : safe_compare e.root_cause t.root_cause = false := by
      rw [hrc, htrc]; simp [safe_compare, hv]
    simp [is_issue_modified, h1, h2, h3, h4, hcm]

/-- C5 witness: the three sentinel-equivalence cases evaluated on concrete
stored/fetched pairs. -/
theorem c5_sentinel_equivalence_witness :
    is_issue_modified eRes tRes = false ∧
    is_issue_modified eRc1 tRc1 = false ∧
    is_issue_modified eRc2 tRc2 = false :=
  ⟨(c5_sentinel_equivalence eRes tRes rfl rfl rfl rfl).1 rfl rfl rfl,
   (c5_sentinel_equivalence eRc1 tRc1 rfl rfl rfl rfl).2.1 rfl rfl rfl,
   (c5_sentinel_equivalence eRc2 tRc2 rfl rfl rfl rfl).2.2 [] rfl rfl (by decide) rfl⟩

/-- C10: the sentinel-equivalence rules live in the one shared helper
`safe_compare`, which `is_issue_modified` applies uniformly to all four
compared fields; a stored `"Unresolved"`, `"No root cause provided"` or
`"No content"` against an absent fetched value is never a modification,
whichever field it sits in. -/
theorem c10_uniform_sentinel_rules :
    (∀ v : List Char,
      v = unresolvedS ∨ v = noRootCauseS ∨ v = noContentS →
      safe_compare (some v) none = false) ∧
    (∀ (e : StoredIssue) (t : RawTicket),
      is_issue_modified e t =
        (safe_compare e.summary t.summary ||
         safe_compare e.description t.description ||
         safe_compare e.resolution t.resolution ||
         safe_compare e.root_cause t.root_cause ||
         commentsModified e t)) := by
  constructor
  · rintro v (rfl | rfl | rfl) <;> decide
  · intro e t; rfl

/-- C10 witness: the three sentinels evaluated through the shared
helper. -/
theorem c10_uniform_sentinel_witness :
    safe_compare (some unresolvedS) none = false ∧
    safe_compare (some noRootCauseS) none = false ∧
    safe_compare (some noContentS) none = false :=
  ⟨c10_uniform_sentinel_rules.1 unresolvedS (Or.inl rfl),
   c10_uniform_sentinel_rules.1 noRootCauseS (Or.inr (Or.inl rfl)),
   c10_uniform_sentinel_rules.1 noContentS (Or.inr (Or.inr rfl))⟩

/-- Positional reading of the comment-body `any` over a `zip`: some index
below both lengths has differing normalized bodies. -/
lemma zip_any_bodies_iff (l₁ : List StoredComment) (l₂ : List RawComment) :
    ((l₁.zip l₂).any (fun p =>
        decide (clean_text (some (p.1.body.getD [])) ≠ clean_text (some p.2.body))) = true ↔
      ∃ i, ∃ h₁ : i < l₁.length, ∃ h₂ : i < l₂.length,
        clean_text (some ((l₁.get ⟨i, h₁⟩).body.getD [])) ≠
          clean_text (some ((l₂.get ⟨i, h₂⟩).body))) := by
  induction l₁ generalizing l₂ with
  | nil => simp
  | cons a l ih =>
    cases l₂ with
    | nil => simp
    | cons b l' =>
      simp only [List.zip_cons_cons, List.any_cons, Bool.or_eq_true, decide_eq_true_eq]
      constructor
      · rintro (h | h)
        · exact ⟨0, Nat.succ_pos _, Nat.succ_pos _, h⟩
        · obtain ⟨i, h₁, h₂, hf⟩ := (ih l').mp h
          exact ⟨i + 1, Nat.succ_lt_succ h₁, Nat.succ_lt_succ h₂, hf⟩
      · rintro ⟨i, h₁, h₂, hf⟩
        cases i with
        | zero => exact Or.inl hf
        | succ i =>
          exact Or.inr ((ih l').mpr
            ⟨i, Nat.lt_of_succ_lt_succ h₁, Nat.lt_of_succ_lt_succ h₂, hf⟩)

/-- C6: with the four scalar fields comparing clean, a modification is
flagged iff the filtered stored comment count differs from the fetched
count (with one side non-empty) or the counts agree and some position has
differing normalized bodies; and the concrete `"foo"` vs `"foo\r\n"` pair
flags nothing. -/
theorem c6_comment_comparison :
    (∀ (e : StoredIssue) (t : RawTicket),
      safe_compare e.summary t.summary = false →
      safe_compare e.description t.description = false →
      safe_compare e.resolution t.resolution = false →
      safe_compare e.root_cause t.root_cause = false →
      (is_issue_modified e t = true ↔
        (((filteredComments e).length ≠ t.comments.length ∧
            (filteredComments e ≠ [] ∨ t.comments ≠ [])) ∨
         ((filteredComments e).length = t.comments.length ∧
           ∃ i, ∃ h₁ : i < (filteredComments e).length,
             ∃ h₂ : i < t.comments.length,
             clean_text (some (((filteredComments e).get ⟨i, h₁⟩).body.getD [])) ≠
               clean_text (some ((t.comments.get ⟨i, h₂⟩).body)))))) ∧
    is_issue_modified eFoo tFoo = false := by
  constructor
  · intro e t h1 h2 h3 h4
    have hm : is_issue_modified e t = commentsModified e t := by
      simp [is_issue_modified, h1, h2, h3, h4]
    rw [hm]
    by_cases hlen : (filteredComments e).length = t.comments.length
    · by_cases hnil : t.comments = []
      · have hcm : commentsModified e t = false := by
          simp [commentsModified, hnil, hlen]
        rw [hcm]
        apply iff_of_false (by simp)
        rintro (⟨hne, _⟩ | ⟨_, i, _, h₂, _⟩)
        · exact hne hlen
        · rw [hnil] at h₂; exact absurd h₂ (Nat.not_lt_zero i)
      · have hemp : t.comments.isEmpty = false := by
          simpa [List.isEmpty_iff] using hnil
        have hcm : commentsModified e t =
            ((filteredComments e).zip t.comments).any (fun p =>
              decide (clean_text (some (p.1.body.getD [])) ≠
                clean_text (some p.2.body))) := by
          simp [commentsModified, hlen, hemp]
        rw [hcm, zip_any_bodies_iff]
        simp [hlen]
    · have hpos : 0 < (filteredComments e).length ∨ 0 < t.comments.length := by
        omega
      have hcm : commentsModified e t = true := by
        simp only [commentsModified]
        rw [if_pos ⟨hlen, hpos⟩]
      rw [hcm]
      apply iff_of_true rfl
      refine Or.inl ⟨hlen, ?_⟩
      rcases hpos with hp | hp
      · exact Or.inl (List.ne_nil_of_length_pos hp)
      · exact Or.inr (List.ne_nil_of_length_pos hp)
  · decide

/-- C6 witness: one real stored comment against two fetched comments is a
modification (the count branch of the characterization). -/
theorem c6_comment_comparison_witness :
    is_issue_modified eCnt tCnt = true :=
  (c6_comment_comparison.1 eCnt tCnt (by decide) (by decide) (by decide)
      (by decide)).mpr (Or.inl (by decide))

/-- The head surviving `dropWhile` fails the predicate. -/
lemma dropWhile_head_not (p : Char → Bool) :
    ∀ (l : List Char) (c : Char), (l.dropWhile p).head? = some c → p c = false := by
  intro l
  induction l with
  | nil => intro c h; simp at h
  | cons x xs ih =>
    intro c h
    by_cases hx : p x
    · rw [List.dropWhile_cons_of_pos hx] at h; exact ih c h
    · rw [List.dropWhile_cons_of_neg hx] at h
      simp only [List.head?_cons, Option.some.injEq] at h
      rw [← h]; simpa using hx

/-- `dropWhile pyWS s` splits as the stripped core followed by the
trailing whitespace. -/
lemma dropWhile_eq_pyStrip_append (s : List Char) :
    s.dropWhile pyWS =
      pyStrip s ++ ((s.dropWhile pyWS).reverse.takeWhile pyWS).reverse := by
  conv_lhs => rw [← List.reverse_reverse (s.dropWhile pyWS)]
  conv_lhs =>
    rw [← List.takeWhile_append_dropWhile (p := pyWS) (l := (s.dropWhile pyWS).reverse)]
  rw [List.reverse_append]
  rfl

/-- The stripped string is the input minus an all-whitespace prefix and
suffix. -/
lemma pyStrip_decomp (s : List Char) :
    ∃ pre suf, s = pre ++ pyStrip s ++ suf ∧
      (∀ c ∈ pre, pyWS c = true) ∧ (∀ c ∈ suf, pyWS c = true) := by
  refine ⟨s.takeWhile pyWS, ((s.dropWhile pyWS).reverse.takeWhile pyWS).reverse, ?_, ?_, ?_⟩
  · conv_lhs =>
      rw [← List.takeWhile_append_dropWhile (p := pyWS) (l := s),
        dropWhile_eq_pyStrip_append s]
    exact (List.append_assoc _ _ _).symm
  · intro c hc; exact List.mem_takeWhile_imp hc
  · intro c hc; rw [List.mem_reverse] at hc; exact List.mem_takeWhile_imp hc

/-- The first character of the stripped string is not whitespace. -/
lemma pyStrip_head (s : List Char) (c : Char) (h : (pyStrip s).head? = some c) :
    pyWS c = false := by
  have hd : (s.dropWhile pyWS).head? = some c := by
    rw [dropWhile_eq_pyStrip_append s]
    cases hps : pyStrip s with
    | nil => rw [hps] at h; simp at h
    | cons a l =>
      rw [hps] at h
      simp only [List.head?_cons, Option.some.injEq] at h
      simpa using h
  exact dropWhile_head_not pyWS s c hd

/-- The last character of the stripped string is not whitespace. -/
lemma pyStrip_getLast (s : List Char) (c : Char) (h : (pyStrip s).getLast? = some c) :
    pyWS c = false := by
  have h' : (((s.dropWhile pyWS).reverse).dropWhile pyWS).head? = some c := by
    have : pyStrip s = (((s.dropWhile pyWS).reverse).dropWhile pyWS).reverse := rfl
    rw [this, List.getLast?_reverse] at h
    exact h
  exact dropWhile_head_not pyWS _ c h'

/-- `replCRLF` of a non-empty list is non-empty. -/
lemma replCRLF_ne_nil : ∀ l : List Char, l ≠ [] → replCRLF l ≠ [] := by
  intro l hl
  cases l with
  | nil => exact absurd rfl hl
  | cons c₁ rest =>
    cases rest with
    | nil => simp [replCRLF]
    | cons c₂ r =>
      simp only [replCRLF]
      split <;> simp

/-- `replCRLF` keeps a leading character that is not `'\r'`. -/
lemma replCRLF_cons_of_ne (c : Char) (l : List Char) (hc : c ≠ '\r') :
    replCRLF (c :: l) = c :: replCRLF l := by
  cases l with
  | nil => simp [replCRLF]
  | cons c₂ r => simp [replCRLF, hc]

/-- `replCRLF` keeps a non-whitespace last character. -/
lemma replCRLF_getLast (l : List Char) :
    ∀ c : Char, l.getLast? = some c → pyWS c = false →
      (replCRLF l).getLast? = some c := by
  induction l using replCRLF.induct with
  | case1 =>
    intro c h _; simp at h
  | case2 c₀ =>
    intro c h _
    simp only [List.getLast?_singleton, Option.some.injEq] at h
    rw [← h]; simp [replCRLF]
  | case3 c₁ c₂ rest hcond ih =>
    obtain ⟨rfl, rfl⟩ := hcond
    intro c h hw
    cases rest with
    | nil =>
      simp only [List.getLast?_cons_cons, List.getLast?_singleton,
        Option.some.injEq] at h
      rw [← h] at hw
      simp [pyWS] at hw
    | cons d ds =>
      have hrest : (d :: ds).getLast? = some c := by
        rw [List.getLast?_cons_cons, List.getLast?_cons_cons] at h
        exact h
      have hr := ih c hrest hw
      have hne : replCRLF (d :: ds) ≠ [] := replCRLF_ne_nil _ (by simp)
      obtain ⟨w, ws, hw2⟩ : ∃ w ws, replCRLF (d :: ds) = w :: ws := by
        cases hrc : replCRLF (d :: ds) with
        | nil => exact absurd hrc hne
        | cons w ws => exact ⟨w, ws, rfl⟩
      have heq : replCRLF ('\r' :: '\n' :: d :: ds) = '\n' :: replCRLF (d :: ds) := by
        simp [replCRLF]
      rw [heq, hw2, List.getLast?_cons_cons, ← hw2]
      exact hr
  | case4 c₁ c₂ rest hcond ih =>
    intro c h hw
    have h' : (c₂ :: rest).getLast? = some c := by
      rw [List.getLast?_cons_cons] at h; exact h
    have hr := ih c h' hw
    have hne : replCRLF (c₂ :: rest) ≠ [] := replCRLF_ne_nil _ (by simp)
    obtain ⟨w, ws, hw2⟩ : ∃ w ws, replCRLF (c₂ :: rest) = w :: ws := by
      cases hrc : replCRLF (c₂ :: rest) with
      | nil => exact absurd hrc hne
      | cons w ws => exact ⟨w, ws, rfl⟩
    have heq : replCRLF (c₁ :: c₂ :: rest) = c₁ :: replCRLF (c₂ :: rest) := by
      simp only [replCRLF]
      rw [if_neg hcond]
    rw [heq, hw2, List.getLast?_cons_cons, ← hw2]
    exact hr

/-- `getLast?` commutes with `map`. -/
lemma getLast?_map_char (f : Char → Char) (l : List Char) :
    (l.map f).getLast? = l.getLast?.map f := by
  induction l with
  | nil => simp
  | cons a l ih =>
    cases l with
    | nil => simp
    | cons b m =>
      simp only [List.map_cons, List.getLast?_cons_cons] at *
      exact ih

/-- C7: `clean_text` returns the `"No content"` sentinel exactly on the
falsy inputs (absent or empty); on any other input it applies strip, then
the `"\r\n"`-to-`"\n"` replacement, then tab-to-space: the result carries
no leading or trailing whitespace and no tab, the stripped core is the
input minus an all-whitespace prefix and suffix, and `replCRLF` is the
left-to-right single-pass replacement of `"\r\n"` by `"\n"`. -/
theorem c7_normalize_text :
    (clean_text none = noContentS) ∧
    (clean_text (some []) = noContentS) ∧
    (∀ s : List Char, s ≠ [] →
      clean_text (some s) = replTab (replCRLF (pyStrip s))) ∧
    (∀ s : List Char, ∃ pre suf, s = pre ++ pyStrip s ++ suf ∧
      (∀ c ∈ pre, pyWS c = true) ∧ (∀ c ∈ suf, pyWS c = true)) ∧
    (∀ (s : List Char) (c : Char), s ≠ [] →
      (clean_text (some s)).head? = some c → pyWS c = false) ∧
    (∀ (s : List Char) (c : Char), s ≠ [] →
      (clean_text (some s)).getLast? = some c → pyWS c = false) ∧
    (∀ s : List Char, s ≠ [] → '\t' ∉ clean_text (some s)) ∧
    (∀ l : List Char, replCRLF ('\r' :: '\n' :: l) = '\n' :: replCRLF l) ∧
    (∀ (c : Char) (l : List Char), (c = '\r' → l.head? ≠ some '\n') →
      replCRLF (c :: l) = c :: replCRLF l) := by
  have hclean : ∀ s : List Char, s ≠ [] →
      clean_text (some s) = replTab (replCRLF (pyStrip s))  := by
    intro s hs; simp [clean_text, hs]
  refine ⟨rfl, rfl, hclean, pyStrip_decomp, ?_, ?_, ?_, ?_, ?_⟩
  · intro s c hs h
    rw [hclean s hs, replTab, List.head?_map] at h
    cases hps : pyStrip s with
    | nil => rw [hps] at h; simp [replCRLF] at h
    | cons a l =>
      have ha : pyWS a = false := pyStrip_head s a (by rw [hps]; rfl)
      have har : a ≠ '\r' := by
        intro hr; rw [hr] at ha; simp [pyWS] at ha
      rw [hps, replCRLF_cons_of_ne a l har] at h
      simp only [List.head?_cons, Option.map_some', Option.some.injEq] at h
      have hat : a ≠ '\t' := by
        intro ht; rw [ht] at ha; simp [pyWS] at ha
      rw [if_neg hat] at h
      rw [← h]
      exact ha
  · intro s c hs h
    rw [hclean s hs, replTab, getLast?_map_char] at h
    cases hns : pyStrip s with
    | nil => rw [hns] at h; simp [replCRLF] at h
    | cons w ws =>
      have hwne : (w :: ws) ≠ ([] : List Char) := by simp
      have hps : (w :: ws).getLast? = some ((w :: ws).getLast hwne) :=
        List.getLast?_eq_getLast _ hwne
      have hb : pyWS ((w :: ws).getLast hwne) = false := by
        apply pyStrip_getLast s
        rw [hns]; exact hps
      have hrl := replCRLF_getLast (pyStrip s) ((w :: ws).getLast hwne)
        (by rw [hns]; exact hps) hb
      rw [hrl] at h
      simp only [Option.map_some', Option.some.injEq] at h
      have hat : (w :: ws).getLast hwne ≠ '\t' := by
        intro ht; rw [ht] at hb; simp [pyWS] at hb
      rw [if_neg hat] at h
      rw [← h]
      exact hb
  · intro s hs hmem
    rw [hclean s hs, replTab] at hmem
    rcases List.mem_map.mp hmem with ⟨a, _, ha⟩
    by_cases hat : a = '\t'
    · rw [if_pos hat] at ha; exact absurd ha (by decide)
    · rw [if_neg hat] at ha; exact hat ha
  · intro l; simp [replCRLF]
  · intro c l h
    cases l with
    | nil => simp [replCRLF]
    | cons c₂ r =>
      simp only [replCRLF]
      rw [if_neg]
      rintro ⟨hc, hn⟩
      exact h hc (by rw [hn]; rfl)

/-- C7 witness: the characterization applied to concrete inputs. -/
theorem c7_normalize_text_witness :
    clean_text (some " x ".toList) = replTab (replCRLF (pyStrip " x ".toList)) ∧
    '\t' ∉ clean_text (some " a\tb ".toList) ∧
    replCRLF ('a' :: "bc".toList) = 'a' :: replCRLF "bc".toList :=
  ⟨c7_normalize_text.2.2.1 (" x ".toList) (by decide),
   c7_normalize_text.2.2.2.2.2.2.1 (" a\tb ".toList) (by decide),
   c7_normalize_text.2.2.2.2.2.2.2.2 'a' ("bc".toList) (by intro h; cases h)⟩

/-- C9: a non-empty all-whitespace input is cleaned to the empty string,
not to the `"No content"` sentinel, and a stored `"No content"` against
such a fetched value is reported as a modification. -/
theorem c9_whitespace_only_not_sentinel :
    ∀ s : List Char, s ≠ [] → (∀ c ∈ s, pyWS c = true) →
      clean_text (some s) = [] ∧ clean_text (some s) ≠ noContentS ∧
      safe_compare (some noContentS) (some s) = true := by
  intro s hs hws
  have hdw : s.dropWhile pyWS = [] := List.dropWhile_eq_nil_iff.mpr hws
  have hstrip : pyStrip s = [] := by simp [pyStrip, hdw]
  have h0 : clean_text (some s) = [] := by
    simp [clean_text, hs, hstrip, replCRLF, replTab]
  have hcn : clean_text (some noContentS) = noContentS := by decide
  have h1 : noContentS ≠ noRootCauseS := by decide
  have h2 : noContentS ≠ unresolvedS := by decide
  have h3 : noContentS ≠ ([] : List Char) := by decide
  refine ⟨h0, by rw [h0]; decide, ?_⟩
  simp [safe_compare, h0, hcn, h1, h2, h3]

/-- Removing the records with a given key shortens the list by exactly the
number of records carrying that key. -/
lemma length_filter_ne_key (l : List StoredIssue) (k : List Char) :
    (l.filter (fun i => i.key != k)).length =
      l.length - l.countP (fun i => i.key == k) := by
  induction l with
  | nil => simp
  | cons a l ih =>
    have hcle : l.countP (fun i => i.key == k) ≤ l.length :=
      List.countP_le_length _
    by_cases h : a.key = k
    · simp only [List.filter_cons, List.countP_cons]
      simp [h, ih]
    · simp only [List.filter_cons, List.countP_cons]
      simp [h, ih]
      omega

/-- After the replace-step filter no record carries the filtered key. -/
lemma countP_filter_ne_key_self (l : List StoredIssue) (k : List Char) :
    (l.filter (fun i => i.key != k)).countP (fun i => i.key == k) = 0 := by
  rw [List.countP_eq_zero]
  intro a ha
  have h2 := (List.mem_filter.mp ha).2
  simp only [bne_iff_ne, ne_eq] at h2
  simpa using h2

/-- One merge step never shrinks `updated_issues` and preserves the
at-most-one-record-per-stored-key invariant. -/
lemma mergeStep_grow (stored : List StoredIssue)
    (st : List StoredIssue × List ChangeEvent) (t : RawTicket)
    (hinv : ∀ k ∈ stored.map (fun i => i.key),
      st.1.countP (fun i => i.key == k) ≤ 1) :
    st.1.length ≤ (mergeStep stored st t).1.length ∧
    (∀ k ∈ stored.map (fun i => i.key),
      (mergeStep stored st t).1.countP (fun i => i.key == k) ≤ 1) := by
  cases hfind : stored.find? (fun i => i.key == t.key) with
  | none =>
    have hstep : (mergeStep stored st t).1 = st.1 ++ [extract_issue_data t] := by
      simp [mergeStep, hfind]
    have hkey : t.key ∉ stored.map (fun i => i.key) := by
      intro hmem
      rcases List.mem_map.mp hmem with ⟨i, hi, hik⟩
      have := List.find?_eq_none.mp hfind i hi
      simp [hik] at this
    refine ⟨by rw [hstep]; simp, ?_⟩
    intro k hk
    rw [hstep, List.countP_append]
    have hne : (extract_issue_data t).key ≠ k := by
      intro he
      apply hkey
      have ht : t.key = k := he
      rw [ht]
      exact hk
    have h1 : ([extract_issue_data t].countP (fun i => i.key == k)) = 0 := by
      simp [List.countP_cons, hne]
    rw [h1]
    simpa using hinv k hk
  | some ex =>
    cases hmod : is_issue_modified ex t with
    | false =>
      have hstep : mergeStep stored st t = st := by simp [mergeStep, hfind, hmod]
      rw [hstep]
      exact ⟨le_refl _, hinv⟩
    | true =>
      have hstep : (mergeStep stored st t).1 =
          st.1.filter (fun i => i.key != t.key) ++ [extract_issue_data t] := by
        simp [mergeStep, hfind, hmod]
      have htk : t.key ∈ stored.map (fun i => i.key) := by
        have hmem := List.mem_of_find?_eq_some hfind
        have hp := List.find?_some hfind
        simp only [beq_iff_eq] at hp
        exact List.mem_map.mpr ⟨ex, hmem, hp⟩
      have hc1 : st.1.countP (fun i => i.key == t.key) ≤ 1 := hinv t.key htk
      have hcle : st.1.countP (fun i => i.key == t.key) ≤ st.1.length :=
        List.countP_le_length _
      constructor
      · rw [hstep, List.length_append, length_filter_ne_key st.1 t.key]
        simp only [List.length_singleton]
        omega
      · intro k hk
        rw [hstep, List.countP_append]
        by_cases hkt : k = t.key
        · subst hkt
          rw [countP_filter_ne_key_self]
          have hxk : (extract_issue_data t).key = t.key := rfl
          simp [List.countP_cons, hxk]
        · have hfle : (st.1.filter (fun i => i.key != t.key)).countP
              (fun i => i.key == k) ≤ st.1.countP (fun i => i.key == k) :=
            (List.filter_sublist _).countP_le _
          have h1 : ([extract_issue_data t].countP (fun i => i.key == k)) = 0 := by
            have hne : (extract_issue_data t).key ≠ k := by
              intro he
              exact hkt (by rw [← he]; rfl)
            simp [List.countP_cons, hne]
          rw [h1]
          have := hinv k hk
          omega

/-- Folding merge steps never shrinks `updated_issues`. -/
lemma foldl_merge_length (stored : List StoredIssue) :
    ∀ (batch : List RawTicket) (st : List StoredIssue × List ChangeEvent),
      (∀ k ∈ stored.map (fun i => i.key),
        st.1.countP (fun i => i.key == k) ≤ 1) →
      st.1.length ≤ (batch.foldl (mergeStep stored) st).1.length := by
  intro batch
  induction batch with
  | nil => intro st _; simp
  | cons t rest ih =>
    intro st hinv
    rw [List.foldl_cons]
    obtain ⟨hlen, hinv'⟩ := mergeStep_grow stored st t hinv
    exact le_trans hlen (ih _ hinv')

/-- A record whose key no batch ticket carries survives the merge loop
untouched. -/
lemma foldl_merge_mem (stored : List StoredIssue) :
    ∀ (batch : List RawTicket) (st : List StoredIssue × List ChangeEvent)
      (r : StoredIssue),
      r ∈ st.1 → (∀ t ∈ batch, t.key ≠ r.key) →
      r ∈ (batch.foldl (mergeStep stored) st).1 := by
  intro batch
  induction batch with
  | nil => intro st r hr _; simpa using hr
  | cons t rest ih =>
    intro st r hr hk
    rw [List.foldl_cons]
    apply ih
    · cases hfind : stored.find? (fun i => i.key == t.key) with
      | none =>
        have hstep : (mergeStep stored st t).1 = st.1 ++ [extract_issue_data t] := by
          simp [mergeStep, hfind]
        rw [hstep]
        exact List.mem_append_left _ hr
      | some ex =>
        cases hmod : is_issue_modified ex t with
        | false =>
          have hstep : mergeStep stored st t = st := by simp [mergeStep, hfind, hmod]
          rw [hstep]
          exact hr
        | true =>
          have hstep : (mergeStep stored st t).1 =
              st.1.filter (fun i => i.key != t.key) ++ [extract_issue_data t] := by
            simp [mergeStep, hfind, hmod]
          rw [hstep]
          apply List.mem_append_left
          apply List.mem_filter.mpr
          refine ⟨hr, ?_⟩
          have hne : t.key ≠ r.key := hk t (List.mem_cons_self _ _)
          simpa [bne_iff_ne] using (Ne.symm hne)
    · intro u hu
      exact hk u (List.mem_cons_of_mem _ hu)

/-- With pairwise-distinct stored keys, at most one record carries any
given key. -/
lemma countP_key_le_one_of_nodup :
    ∀ (stored : List StoredIssue) (k : List Char),
      (stored.map (fun i => i.key)).Nodup →
      stored.countP (fun i => i.key == k) ≤ 1 := by
  intro stored
  induction stored with
  | nil => intro k _; simp
  | cons a l ih =>
    intro k hnd
    simp only [List.map_cons, List.nodup_cons] at hnd
    obtain ⟨hna, hnl⟩ := hnd
    rw [List.countP_cons]
    by_cases h : a.key = k
    · have h0 : l.countP (fun i => i.key == k) = 0 := by
        rw [List.countP_eq_zero]
        intro b hb
        simp only [beq_iff_eq]
        intro hbk
        exact hna (List.mem_map.mpr ⟨b, hb, by rw [hbk, ← h]⟩)
      simp [h0, h]
    · have hle := ih k hnl
      simp only [beq_iff_eq, h]
      simpa using hle

/-- C8: the merge never deletes — the updated collection has at least as
many records as the stored one (stored keys being unique, as the dict
load guarantees), and every stored record whose key is absent from the
fetched batch appears unchanged in the result. -/
theorem c8_monotonic_growth :
    ∀ (stored : List StoredIssue) (batch : List RawTicket),
      (stored.map (fun i => i.key)).Nodup →
      stored.length ≤ (sync_merge stored batch).1.length ∧
      (∀ r ∈ stored, (∀ t ∈ batch, t.key ≠ r.key) →
        r ∈ (sync_merge stored batch).1) := by
  intro stored batch hnd
  have hinv : ∀ k ∈ stored.map (fun i => i.key),
      stored.countP (fun i => i.key == k) ≤ 1 := fun k _ =>
    countP_key_le_one_of_nodup stored k hnd
  constructor
  · exact foldl_merge_length stored batch (stored, []) hinv
  · intro r hr hk
    exact foldl_merge_mem stored batch (stored, []) r hr hk

/-- C8 witness: a one-record stored collection and a one-ticket batch with
a fresh key. -/
theorem c8_monotonic_growth_witness :
    ([eRes] : List StoredIssue).length ≤ (sync_merge [eRes] [tDup]).1.length ∧
    (∀ r ∈ ([eRes] : List StoredIssue),
      (∀ t ∈ ([tDup] : List RawTicket), t.key ≠ r.key) →
      r ∈ (sync_merge [eRes] [tDup]).1) :=
  c8_monotonic_growth [eRes] [tDup] (by decide)

/-- A batch ticket whose key is not in the dictionary heads the new-key
list. -/
lemma batchNewKeys_cons_new (stored : List StoredIssue) (t : RawTicket)
    (rest : List RawTicket)
    (h : stored.find? (fun i => i.key == t.key) = none) :
    batchNewKeys stored (t :: rest) = t.key :: batchNewKeys stored rest := by
  simp [batchNewKeys, List.filter_cons, h]

/-- A batch ticket whose key is in the dictionary contributes no new
key. -/
lemma batchNewKeys_cons_old (stored : List StoredIssue) (t : RawTicket)
    (rest : List RawTicket) (ex : StoredIssue)
    (h : stored.find? (fun i => i.key == t.key) = some ex) :
    batchNewKeys stored (t :: rest) = batchNewKeys stored rest := by
  simp [batchNewKeys, List.filter_cons, h]

/-- A member of the new-key list cannot be a key the dictionary lookup
finds. -/
lemma batchNewKeys_not_found (stored : List StoredIssue)
    (batch : List RawTicket) (k : List Char)
    (hk : k ∈ batchNewKeys stored batch) (ex : StoredIssue)
    (hfind : stored.find? (fun i => i.key == k) = some ex) : False := by
  simp only [batchNewKeys, List.mem_map, List.mem_filter] at hk
  rcases hk with ⟨u, ⟨_, hnone⟩, huk⟩
  rw [huk] at hnone
  rw [hfind] at hnone
  simp at hnone

/-- The merge loop keeps `updated_issues` keys pairwise distinct as long
as the pending new keys are distinct and disjoint from the accumulated
keys. -/
lemma foldl_merge_keys_nodup (stored : List StoredIssue) :
    ∀ (batch : List RawTicket) (st : List StoredIssue × List ChangeEvent),
      (st.1.map (fun i => i.key)).Nodup →
      (batchNewKeys stored batch).Nodup →
      (∀ k ∈ batchNewKeys stored batch, k ∉ st.1.map (fun i => i.key)) →
      (((batch.foldl (mergeStep stored) st).1.map (fun i => i.key)).Nodup) := by
  intro batch
  induction batch with
  | nil => intro st h1 _ _; simpa using h1
  | cons t rest ih =>
    intro st h1 h2 h3
    rw [List.foldl_cons]
    cases hfind : stored.find? (fun i => i.key == t.key) with
    | none =>
      have hbk := batchNewKeys_cons_new stored t rest hfind
      rw [hbk] at h2 h3
      have htk : t.key ∉ st.1.map (fun i => i.key) :=
        h3 t.key (List.mem_cons_self _ _)
      have hstep : (mergeStep stored st t).1 = st.1 ++ [extract_issue_data t] := by
        simp [mergeStep, hfind]
      apply ih
      · rw [hstep, List.map_append]
        rw [List.nodup_append]
        refine ⟨h1, by simp, ?_⟩
        intro k hkmem
        have hxk : (extract_issue_data t).key = t.key := rfl
        simp only [List.map_cons, List.map_nil, hxk, List.mem_singleton]
        intro hkt
        rw [hkt] at hkmem
        exact htk hkmem
      · exact (List.nodup_cons.mp h2).2
      · intro k hk
        have hkne : k ≠ t.key := by
          intro he
          exact (List.nodup_cons.mp h2).1 (he ▸ hk)
        have hknotin : k ∉ st.1.map (fun i => i.key) :=
          h3 k (List.mem_cons_of_mem _ hk)
        rw [hstep, List.map_append]
        simp only [List.mem_append]
        rintro (hc | hc)
        · exact hknotin hc
        · have hxk : (extract_issue_data t).key = t.key := rfl
          simp only [List.map_cons, List.map_nil, hxk, List.mem_singleton] at hc
          exact hkne hc
    | some ex =>
      have hbk := batchNewKeys_cons_old stored t rest ex hfind
      rw [hbk] at h2 h3
      cases hmod : is_issue_modified ex t with
      | false =>
        have hstep : mergeStep stored st t = st := by simp [mergeStep, hfind, hmod]
        rw [hstep]
        exact ih st h1 h2 h3
      | true =>
        have hstep : (mergeStep stored st t).1 =
            st.1.filter (fun i => i.key != t.key) ++ [extract_issue_data t] := by
          simp [mergeStep, hfind, hmod]
        apply ih
        · rw [hstep, List.map_append, List.nodup_append]
          have hsub : List.Sublist
              ((st.1.filter (fun i => i.key != t.key)).map (fun i => i.key))
              (st.1.map (fun i => i.key)) :=
            (List.filter_sublist _).map _
          refine ⟨h1.sublist hsub, by simp, ?_⟩
          intro k hkmem
          have hxk : (extract_issue_data t).key = t.key := rfl
          simp only [List.map_cons, List.map_nil, hxk, List.mem_singleton]
          intro hkt
          rcases List.mem_map.mp hkmem with ⟨i, hif, hik⟩
          have hibne := (List.mem_filter.mp hif).2
          rw [hik, hkt] at hibne
          simp at hibne
        · exact h2
        · intro k hk
          have hkne : k ≠ t.key := by
            intro he
            exact batchNewKeys_not_found stored rest k hk ex (he ▸ hfind)
          have hknotin : k ∉ st.1.map (fun i => i.key) := h3 k hk
          rw [hstep, List.map_append]
          simp only [List.mem_append]
          rintro (hc | hc)
          · rcases List.mem_map.mp hc with ⟨i, hif, hik⟩
            exact hknotin (List.mem_map.mpr ⟨i, (List.mem_filter.mp hif).1, hik⟩)
          · have hxk : (extract_issue_data t).key = t.key := rfl
            simp only [List.map_cons, List.map_nil, hxk, List.mem_singleton] at hc
            exact hkne hc

/-- C4 amended: per fetched ticket in delivery order — a key absent from
the stored dictionary is always inserted (regardless of `is_modified`)
with an `Added` event per delivery, so a new key delivered twice yields
two `Added` events; a present key with `is_modified` true is replaced by
the freshly extracted record with an `Updated` event; a present unmodified
key leaves the state untouched; and the resulting collection's keys stay
unique provided the stored keys are unique and the batch delivers each new
key at most once. -/
theorem c4_merge_step_semantics :
    (∀ (stored : List StoredIssue) (st : List StoredIssue × List ChangeEvent)
        (t : RawTicket),
      stored.find? (fun i => i.key == t.key) = none →
      mergeStep stored st t =
        (st.1 ++ [extract_issue_data t], st.2 ++ [ChangeEvent.added t.key])) ∧
    (∀ (stored : List StoredIssue) (st : List StoredIssue × List ChangeEvent)
        (t : RawTicket) (ex : StoredIssue),
      stored.find? (fun i => i.key == t.key) = some ex →
      is_issue_modified ex t = true →
      mergeStep stored st t =
        (st.1.filter (fun i => i.key != t.key) ++ [extract_issue_data t],
         st.2 ++ [ChangeEvent.updated t.key])) ∧
    (∀ (stored : List StoredIssue) (st : List StoredIssue × List ChangeEvent)
        (t : RawTicket) (ex : StoredIssue),
      stored.find? (fun i => i.key == t.key) = some ex →
      is_issue_modified ex t = false →
      mergeStep stored st t = st) ∧
    (∀ (stored : List StoredIssue) (batch : List RawTicket),
      (stored.map (fun i => i.key)).Nodup →
      (batchNewKeys stored batch).Nodup →
      ((sync_merge stored batch).1.map (fun i => i.key)).Nodup) := by
  refine ⟨?_, ?_, ?_, ?_⟩
  · intro stored st t hfind
    simp [mergeStep, hfind]
  · intro stored st t ex hfind hmod
    simp [mergeStep, hfind, hmod]
  · intro stored st t ex hfind hmod
    simp [mergeStep, hfind, hmod]
  · intro stored batch hnd hbnd
    apply foldl_merge_keys_nodup stored batch (stored, []) hnd hbnd
    intro k hk
    intro hmem
    rcases List.mem_map.mp hmem with ⟨i, hi, hik⟩
    simp only [batchNewKeys, List.mem_map, List.mem_filter] at hk
    rcases hk with ⟨u, ⟨_, hnone⟩, huk⟩
    rw [Option.isNone_iff_eq_none] at hnone
    have := List.find?_eq_none.mp hnone i hi
    rw [huk, ← hik] at this
    simp at this

/-- C4 witness: the three per-ticket behaviours and the uniqueness
conclusion evaluated on concrete inputs. -/
theorem c4_merge_step_semantics_witness :
    mergeStep [] ([], []) tDup =
      ([extract_issue_data tDup], [ChangeEvent.added tDup.key]) ∧
    mergeStep [extract_issue_data tIdem] ([extract_issue_data tIdem], []) tIdem =
      ([extract_issue_data tIdem].filter (fun i => i.key != tIdem.key) ++
        [extract_issue_data tIdem], [ChangeEvent.updated tIdem.key]) ∧
    mergeStep [eRes] ([eRes], []) tRes = ([eRes], []) ∧
    ((sync_merge [eRes] [tDup]).1.map (fun i => i.key)).Nodup :=
  ⟨c4_merge_step_semantics.1 [] ([], []) tDup rfl,
   c4_merge_step_semantics.2.1 [extract_issue_data tIdem]
     ([extract_issue_data tIdem], []) tIdem (extract_issue_data tIdem)
     (by decide) (by decide),
   c4_merge_step_semantics.2.2.1 [eRes] ([eRes], []) tRes eRes
     (by decide) (by decide),
   c4_merge_step_semantics.2.2.2 [eRes] [tDup] (by decide) (by decide)⟩

/-- C9 witness: the single-space input. -/
theorem c9_whitespace_only_witness :
    clean_text (some [' ']) = [] ∧
    clean_text (some [' ']) ≠ noContentS ∧
    safe_compare (some noContentS) (some [' ']) = true :=
  c9_whitespace_only_not_sentinel [' '] (by decide) (by decide)
